import Mathlib

/-!
Verification of the claude-usage-dashboard statistics core.

A shallow embedding of the statistics-derivation layer and the archive
loader of `src/App.tsx` (types from the repository's type declarations),
together with proofs of the specification claims about them.

Modelling conventions:
* JavaScript numbers that only ever hold counts or character totals are
  embedded as `Nat`; `Math.round(a / b)` on nonnegative operands is the
  exact rational rounding `(2a + b) / (2b)` in `Nat` division.
* A JS `Record<string, number>` built by repeated `rec[k] = (rec[k] || 0) + 1`
  is an insertion-ordered association list `List (String × Nat)`.
* `Array.prototype.sort` is stable; it is modelled by `List.insertionSort`
  (the canonical stable sort) with the comparator's induced preorder.
* `String.prototype.localeCompare` restricted to the ASCII date keys used
  here coincides with lexicographic code-point comparison, embedded by the
  executable `charListLe` below.
* `new Date(s).getTime()` is an external collaborator (date parsing); the
  derivations that consult it are parameterised by `getTime : String → Int`.
* `JSON.parse` is an external collaborator; a zip entry carries the parse
  outcome `Except String Json` (an exception message, or the parsed value).
* Fields that the statistics layer never reads (content-block ids, inputs,
  timestamps, message attachments) are omitted from the embedded records.
-/

/-- Record shape of `users.json` (`User` in the repository's types). -/
structure User where
  uuid : String
  full_name : String
  email_address : String
  verified_phone_number : String
  deriving DecidableEq

/-- One content block of a message (`ContentItem`).  `type` is the tag
("text" / "thinking" / "tool_use" / "tool_result" / "token_budget"); the
optional `text` and `name` payloads may be absent. -/
structure ContentItem where
  type : String
  text : Option String
  name : Option String
  deriving DecidableEq

/-- A chat message (`ChatMessage`).  The aggregation code guards both the
top-level `text` (`m.text?.length`) and `content` (`msg.content ?? []`), so
both are embedded as optional. -/
structure ChatMessage where
  uuid : String
  text : Option String
  sender : String
  created_at : String
  updated_at : String
  content : Option (List ContentItem)
  deriving DecidableEq

/-- The inline account reference of a conversation. -/
structure Account where
  uuid : String
  deriving DecidableEq

/-- Record shape of `conversations.json` (`Conversation`). -/
structure Conversation where
  uuid : String
  name : String
  summary : String
  created_at : String
  updated_at : String
  account : Account
  chat_messages : List ChatMessage
  deriving DecidableEq

/-- Derived per-user aggregate (`UserStats`). -/
structure UserStats where
  user : User
  conversationCount : Nat
  messageCount : Nat
  humanMessages : Nat
  assistantMessages : Nat
  avgPromptLength : Nat
  avgResponseLength : Nat
  totalHumanChars : Nat
  totalAssistantChars : Nat
  thinkingBlocks : Nat
  toolUses : List (String × Nat)
  lastActive : String
  deriving DecidableEq

/-- Derived daily-activity entry (`DailyActivity`). -/
structure DailyActivity where
  date : String
  conversations : Nat
  messages : Nat
  deriving DecidableEq

/-- Derived tool-usage histogram entry (`ToolUsageEntry`). -/
structure ToolUsageEntry where
  name : String
  count : Nat
  deriving DecidableEq

/-- Derived per-conversation summary (`ConversationDetail`). -/
structure ConversationDetail where
  uuid : String
  name : String
  userName : String
  created_at : String
  messageCount : Nat
  humanMessages : Nat
  assistantMessages : Nat
  humanChars : Nat
  assistantChars : Nat
  thinkingBlocks : Nat
  toolsUsed : List (String × Nat)
  hasThinking : Bool
  deriving DecidableEq

/-! ## Aggregation engine -/

/-- Embeds `users.find((u) => u.uuid === uuid)?.full_name ?? "Unknown"`. -/
def getUserName (users : List User) (uuid : String) : String :=
  match users.find? (fun u => u.uuid == uuid) with
  | some u => u.full_name
  | none => "Unknown"

/-- Embeds `msg.content ?? []`. -/
def contentList (m : ChatMessage) : List ContentItem :=
  m.content.getD []

/-- Embeds `m.text?.length || 0`: length of the top-level text, `0` when absent
(or empty, which already has length `0`). -/
def msgTextLen (m : ChatMessage) : Nat :=
  match m.text with
  | some s => s.length
  | none => 0

/-- Embeds `rec[name] = (rec[name] || 0) + 1` on an insertion-ordered record:
increment the existing entry, or append a fresh entry with count 1. -/
def bumpTool : List (String × Nat) → String → List (String × Nat)
  | [], n => [(n, 1)]
  | (k, v) :: rest, n =>
      if k == n then (k, v + 1) :: rest else (k, v) :: bumpTool rest n

/-- The shared body `if (c.type === "tool_use" && c.name) { rec[c.name]++ }`:
the JS truthiness test on `c.name` rejects both an absent and an empty name. -/
def toolStep (tu : List (String × Nat)) (c : ContentItem) : List (String × Nat) :=
  if c.type == "tool_use" then
    match c.name with
    | some n => if n == "" then tu else bumpTool tu n
    | none => tu
  else tu

/-- One content block of the combined scan: `if (c.type === "thinking")
thinkingBlocks++` then the tool_use tally. -/
def blockStep (acc : Nat × List (String × Nat)) (c : ContentItem) : Nat × List (String × Nat) :=
  ((if c.type == "thinking" then acc.1 + 1 else acc.1), toolStep acc.2 c)

/-- The double loop `for (const msg of msgs) for (const c of msg.content ?? [])`
tallying thinking blocks and tool uses. -/
def scanBlocks (msgs : List ChatMessage) : Nat × List (String × Nat) :=
  msgs.foldl (fun acc m => (contentList m).foldl blockStep acc) (0, [])

/-- Embeds `userConvs.reduce((latest, c) => getTime(c.updated_at) > getTime(latest.updated_at) ? c : latest)`
on a nonempty list, the head being the initial accumulator. -/
def latestConv (getTime : String → Int) (c : Conversation) (rest : List Conversation) : Conversation :=
  rest.foldl (fun latest c2 =>
    if getTime latest.updated_at < getTime c2.updated_at then c2 else latest) c

/-- Embeds `userConvs.length > 0 ? userConvs.reduce(...).updated_at : ""`. -/
def lastActiveOf (getTime : String → Int) (userConvs : List Conversation) : String :=
  match userConvs with
  | [] => ""
  | c :: rest => (latestConv getTime c rest).updated_at

/-- Embeds `Math.round(a / b)` for nonnegative integers `a` and positive `b`:
round half up, computed exactly as `⌊(2a + b) / (2b)⌋`. -/
def jsRound (a b : Nat) : Nat := (2 * a + b) / (2 * b)

/-- The body of the `users.map((user) => ...)` in `calculateStats`. -/
def statsFor (getTime : String → Int) (conversations : List Conversation) (user : User) : UserStats :=
  let userConvs := conversations.filter (fun c => c.account.uuid == user.uuid)
  let allMessages := userConvs.flatMap (fun c => c.chat_messages)
  let humanMessages := allMessages.filter (fun m => m.sender == "human")
  let assistantMessages := allMessages.filter (fun m => m.sender == "assistant")
  let totalHumanChars := humanMessages.foldl (fun s m => s + msgTextLen m) 0
  let totalAssistantChars := assistantMessages.foldl (fun s m => s + msgTextLen m) 0
  let scanned := scanBlocks allMessages
  { user := user
    conversationCount := userConvs.length
    messageCount := allMessages.length
    humanMessages := humanMessages.length
    assistantMessages := assistantMessages.length
    avgPromptLength :=
      if 0 < humanMessages.length then jsRound totalHumanChars humanMessages.length else 0
    avgResponseLength :=
      if 0 < assistantMessages.length then jsRound totalAssistantChars assistantMessages.length else 0
    totalHumanChars := totalHumanChars
    totalAssistantChars := totalAssistantChars
    thinkingBlocks := scanned.1
    toolUses := scanned.2
    lastActive := lastActiveOf getTime userConvs }

/-- The preorder induced by the comparator
`(a, b) => b.conversationCount - a.conversationCount` (descending). -/
def statsLe (a b : UserStats) : Prop := b.conversationCount ≤ a.conversationCount

instance : DecidableRel statsLe := fun _ _ => Nat.decLe _ _

instance : IsTotal UserStats statsLe := ⟨fun a b => Nat.le_total b.conversationCount a.conversationCount⟩

instance : IsTrans UserStats statsLe := ⟨fun _ _ _ h1 h2 => le_trans h2 h1⟩

/-- Embeds `calculateStats`: per-user aggregates, stably sorted descending by
conversation count. -/
def calculateStats (getTime : String → Int) (users : List User) (conversations : List Conversation) : List UserStats :=
  (users.map (statsFor getTime conversations)).insertionSort statsLe

/-- Lexicographic code-point comparison of character lists (the meaning of
`localeCompare` on the ASCII date keys this program sorts). -/
def charListLe : List Char → List Char → Bool
  | [], _ => true
  | _ :: _, [] => false
  | a :: as, b :: bs =>
      if a.toNat < b.toNat then true
      else if b.toNat < a.toNat then false
      else charListLe as bs

/-- Lexicographic comparison of strings. -/
def strLe (a b : String) : Bool := charListLe a.data b.data

/-- Embeds `created_at.slice(0, 10)`: the 10-character date prefix. -/
def slice10 (s : String) : String := String.mk (s.data.take 10)

/-- Embeds `if (!dayMap[day]) dayMap[day] = ...; dayMap[day].conversations++;
dayMap[day].messages += conv.chat_messages.length` on the insertion-ordered
record: bump the existing entry or append a fresh one. -/
def dayStep (m : List (String × Nat × Nat)) (day : String) (msgCount : Nat) : List (String × Nat × Nat) :=
  match m with
  | [] => [(day, 1, msgCount)]
  | (k, cs, ms) :: rest =>
      if k == day then (k, cs + 1, ms + msgCount) :: rest
      else (k, cs, ms) :: dayStep rest day msgCount

/-- The grouping loop of `calculateDailyActivity`. -/
def dayMap (conversations : List Conversation) : List (String × Nat × Nat) :=
  conversations.foldl
    (fun m c => dayStep m (slice10 c.created_at) c.chat_messages.length) []

/-- The ascending key order `([a], [b]) => a.localeCompare(b)`. -/
def dayKeyLe (a b : String × Nat × Nat) : Prop := strLe a.1 b.1 = true

instance : DecidableRel dayKeyLe := fun _ _ => instDecidableEqBool _ _

/-- Embeds `calculateDailyActivity`: group by date prefix, sort ascending by key. -/
def calculateDailyActivity (conversations : List Conversation) : List DailyActivity :=
  ((dayMap conversations).insertionSort dayKeyLe).map (fun e => ⟨e.1, e.2.1, e.2.2⟩)

/-- The descending count order `(a, b) => b.count - a.count`. -/
def toolCountLe (a b : ToolUsageEntry) : Prop := b.count ≤ a.count

instance : DecidableRel toolCountLe := fun _ _ => Nat.decLe _ _

instance : IsTotal ToolUsageEntry toolCountLe := ⟨fun a b => Nat.le_total b.count a.count⟩

instance : IsTrans ToolUsageEntry toolCountLe := ⟨fun _ _ _ h1 h2 => le_trans h2 h1⟩

/-- Embeds `calculateToolUsage`: the global tool_use tally over every message of
every conversation, emitted sorted descending by count. -/
def calculateToolUsage (conversations : List Conversation) : List ToolUsageEntry :=
  let counts := conversations.foldl
    (fun acc c => c.chat_messages.foldl
      (fun acc2 m => (contentList m).foldl toolStep acc2) acc) []
  (counts.map (fun kv => ⟨kv.1, kv.2⟩)).insertionSort toolCountLe

/-- The body of the `conversations.map((conv) => ...)` in
`calculateConversationDetails`.  `conv.name || "Untitled"` falls back on the
empty (falsy) name; the account reference resolves via `getUserName`. -/
def convDetail (users : List User) (conv : Conversation) : ConversationDetail :=
  let humanMsgs := conv.chat_messages.filter (fun m => m.sender == "human")
  let assistantMsgs := conv.chat_messages.filter (fun m => m.sender == "assistant")
  let scanned := scanBlocks conv.chat_messages
  { uuid := conv.uuid
    name := if conv.name == "" then "Untitled" else conv.name
    userName := getUserName users conv.account.uuid
    created_at := conv.created_at
    messageCount := conv.chat_messages.length
    humanMessages := humanMsgs.length
    assistantMessages := assistantMsgs.length
    humanChars := humanMsgs.foldl (fun s m => s + msgTextLen m) 0
    assistantChars := assistantMsgs.foldl (fun s m => s + msgTextLen m) 0
    thinkingBlocks := scanned.1
    toolsUsed := scanned.2
    hasThinking := decide (0 < scanned.1) }

/-- The descending creation-time order
`(a, b) => getTime(b.created_at) - getTime(a.created_at)`. -/
def detailTimeLe (getTime : String → Int) (a b : ConversationDetail) : Prop :=
  getTime b.created_at ≤ getTime a.created_at

instance (getTime : String → Int) : DecidableRel (detailTimeLe getTime) :=
  fun _ _ => Int.decLe _ _

/-- Embeds `calculateConversationDetails`: per-conversation summaries sorted most
recent first. -/
def calculateConversationDetails (getTime : String → Int) (conversations : List Conversation) (users : List User) : List ConversationDetail :=
  (conversations.map (convDetail users)).insertionSort (detailTimeLe getTime)

/-! ## Archive loader -/

/-- A parsed JSON value (the external parser's output). -/
inductive Json where
  | null
  | bool (b : Bool)
  | num (n : Int)
  | str (s : String)
  | arr (elems : List Json)
  | obj (fields : List (String × Json))

/-- A zip entry as the decompression collaborator presents it: its path,
its directory flag, and the outcome of decoding-and-`JSON.parse`ing its
content (`Except.error` carries the parser's exception message). -/
structure ZipEntry where
  path : String
  isDir : Bool
  parsed : Except String Json

/-- The characters of `path` after the last "/": `path.split("/").pop()`. -/
def lastSegment (cs : List Char) : List Char :=
  cs.foldl (fun acc c => if c == '/' then [] else acc ++ [c]) []

/-- Embeds `path.split("/").pop()?.toLowerCase()`. -/
def lowerBasename (path : String) : String :=
  String.mk ((lastSegment path.data).map Char.toLower)

/-- The scanning loop over `Object.entries(zip.files)`: directories are
skipped, the three basenames select which slot a successfully parsed value
lands in, and a parse exception aborts the whole load. -/
def scanLoop : List ZipEntry → Option Json → Option Json → Json → Except String (Option Json × Option Json × Json)
  | [], u, c, p => .ok (u, c, p)
  | e :: rest, u, c, p =>
      if e.isDir then scanLoop rest u c p
      else if lowerBasename e.path == "users.json" then
        match e.parsed with
        | .error m => .error m
        | .ok j => scanLoop rest (some j) c p
      else if lowerBasename e.path == "conversations.json" then
        match e.parsed with
        | .error m => .error m
        | .ok j => scanLoop rest u (some j) p
      else if lowerBasename e.path == "projects.json" then
        match e.parsed with
        | .error m => .error m
        | .ok j => scanLoop rest u c j
      else scanLoop rest u c p

/-- The three raw collections a successful load yields (the code performs
no per-record validation, so elements stay raw JSON values). -/
structure LoadedData where
  users : List Json
  conversations : List Json
  projects : List Json

/-- JS falsiness of a JSON value (`!usersData`). -/
def jsFalsy : Json → Bool
  | .null => true
  | .bool b => !b
  | .num n => n == 0
  | .str s => s == ""
  | .arr _ => false
  | .obj _ => false

/-- Falsiness of a maybe-assigned slot: `null` (never assigned) or a falsy
parsed value. -/
def optFalsy : Option Json → Bool
  | none => true
  | some j => jsFalsy j

/-- The pure content of `processZipFile`: scan the entries, require both
mandatory files to be present (truthy) and array-shaped, and default a
non-array projects value to the empty list. -/
def processZipFile (entries : List ZipEntry) : Except String LoadedData :=
  match scanLoop entries none none (Json.arr []) with
  | .error m => .error m
  | .ok (u, c, p) =>
      if optFalsy u || optFalsy c then
        .error "Zip must contain users.json and conversations.json"
      else
        match u, c with
        | some (.arr us), some (.arr cs) =>
            .ok { users := us
                  conversations := cs
                  projects := match p with | .arr ps => ps | _ => [] }
        | _, _ => .error "users.json and conversations.json must be arrays"

/-- The component state touched by a load attempt. -/
structure AppState where
  users : List Json
  conversations : List Json
  projects : List Json
  dataLoaded : Bool
  errorMsg : Option String

/-- The state updates of `processZipFile`: on success the three collections
are replaced and the error cleared; on failure only the error message is
set and every previously loaded collection is left untouched. -/
def applyLoad (s : AppState) (entries : List ZipEntry) : AppState :=
  match processZipFile entries with
  | .ok d =>
      { s with users := d.users, conversations := d.conversations,
               projects := d.projects, dataLoaded := true, errorMsg := none }
  | .error m => { s with errorMsg := some m }

/-! ## Helper lemmas -/

/-- Rounding law: `jsRound a b` is a nearest integer to the exact quotient `a / b`:
the doubled distance between `b * jsRound a b` and `a` is at most `b`. -/
theorem jsRound_near (a b : Nat) (hb : 0 < b) :
    2 * Nat.dist (b * jsRound a b) a ≤ b := by
  have hm : 2 * (b * jsRound a b) + (2 * a + b) % (2 * b) = 2 * a + b := by
    rw [jsRound, ← Nat.mul_assoc]
    exact Nat.div_add_mod (2 * a + b) (2 * b)
  have hr : (2 * a + b) % (2 * b) < 2 * b := Nat.mod_lt _ (by omega)
  have hd : Nat.dist (b * jsRound a b) a
      = (b * jsRound a b - a) + (a - b * jsRound a b) := rfl
  omega

theorem statsFor_avgPrompt_def (getTime : String → Int) (conversations : List Conversation) (u : User) :
    (statsFor getTime conversations u).avgPromptLength =
      if 0 < (statsFor getTime conversations u).humanMessages then
        jsRound (statsFor getTime conversations u).totalHumanChars
          (statsFor getTime conversations u).humanMessages
      else 0 := rfl

theorem statsFor_avgResponse_def (getTime : String → Int) (conversations : List Conversation) (u : User) :
    (statsFor getTime conversations u).avgResponseLength =
      if 0 < (statsFor getTime conversations u).assistantMessages then
        jsRound (statsFor getTime conversations u).totalAssistantChars
          (statsFor getTime conversations u).assistantMessages
      else 0 := rfl

/-! ## Claim theorems -/

/-- C2: the four derivations are total functions of their inputs (they are
defined for every embedded input, including messages with absent or empty
`content` and absent `text`); `calculateStats` on an empty user list and the
other three on an empty conversation list return the empty list, and in
general `calculateStats` yields exactly one entry per user and
`calculateConversationDetails` exactly one entry per conversation. -/
theorem c2_total_and_empty (getTime : String → Int) (users : List User) (conversations : List Conversation) :
    calculateStats getTime [] conversations = [] ∧
    calculateDailyActivity [] = [] ∧
    calculateToolUsage [] = [] ∧
    calculateConversationDetails getTime [] users = [] ∧
    (calculateStats getTime users conversations).length = users.length ∧
    (calculateConversationDetails getTime conversations users).length = conversations.length := by
  refine ⟨rfl, rfl, rfl, rfl, ?_, ?_⟩
  · rw [calculateStats, List.length_insertionSort, List.length_map]
  · rw [calculateConversationDetails, List.length_insertionSort, List.length_map]

/-- C3: for every entry of `calculateStats`, when the human message count is
zero the average prompt length is exactly `0` (it is a `Nat`: never NaN,
negative or undefined), and when it is positive the average is the total
human character count divided by the human message count rounded to the
nearest integer (`2·|humanMessages·avg − totalHumanChars| ≤ humanMessages`);
the same law holds for `avgResponseLength` over assistant messages. -/
theorem c3_average_law (getTime : String → Int) (users : List User) (conversations : List Conversation)
    (s : UserStats) (hs : s ∈ calculateStats getTime users conversations) :
    (s.humanMessages = 0 → s.avgPromptLength = 0) ∧
    (0 < s.humanMessages →
      2 * Nat.dist (s.humanMessages * s.avgPromptLength) s.totalHumanChars ≤ s.humanMessages) ∧
    (s.assistantMessages = 0 → s.avgResponseLength = 0) ∧
    (0 < s.assistantMessages →
      2 * Nat.dist (s.assistantMessages * s.avgResponseLength) s.totalAssistantChars ≤ s.assistantMessages) := by
  rw [calculateStats, List.mem_insertionSort, List.mem_map] at hs
  obtain ⟨u, _, rfl⟩ := hs
  refine ⟨?_, ?_, ?_, ?_⟩
  · intro h0
    rw [statsFor_avgPrompt_def, h0]
    simp
  · intro hpos
    rw [statsFor_avgPrompt_def, if_pos hpos]
    exact jsRound_near _ _ hpos
  · intro h0
    rw [statsFor_avgResponse_def, h0]
    simp
  · intro hpos
    rw [statsFor_avgResponse_def, if_pos hpos]
    exact jsRound_near _ _ hpos

/-- A user with no conversations and no messages, used to witness C3's
zero-denominator branch. -/
def fixtureUserA : User := ⟨"user-a", "Alice", "alice@example.com", ""⟩

/-- The constant time interpretation used by concrete witnesses. -/
def gtZero : String → Int := fun _ => 0

/-- Witness for C3 at a concrete input: the single user has no messages, so
both averages are exactly `0`. -/
theorem c3_average_law_witness :
    ((statsFor gtZero [] fixtureUserA).humanMessages = 0 →
      (statsFor gtZero [] fixtureUserA).avgPromptLength = 0) ∧
    (0 < (statsFor gtZero [] fixtureUserA).humanMessages →
      2 * Nat.dist ((statsFor gtZero [] fixtureUserA).humanMessages * (statsFor gtZero [] fixtureUserA).avgPromptLength)
        (statsFor gtZero [] fixtureUserA).totalHumanChars ≤ (statsFor gtZero [] fixtureUserA).humanMessages) ∧
    ((statsFor gtZero [] fixtureUserA).assistantMessages = 0 →
      (statsFor gtZero [] fixtureUserA).avgResponseLength = 0) ∧
    (0 < (statsFor gtZero [] fixtureUserA).assistantMessages →
      2 * Nat.dist ((statsFor gtZero [] fixtureUserA).assistantMessages * (statsFor gtZero [] fixtureUserA).avgResponseLength)
        (statsFor gtZero [] fixtureUserA).totalAssistantChars ≤ (statsFor gtZero [] fixtureUserA).assistantMessages) :=
  c3_average_law gtZero [fixtureUserA] [] (statsFor gtZero [] fixtureUserA) (by decide)

/-- C7: each conversation's detail record is in the output of
`calculateConversationDetails`; its display name is `"Untitled"` exactly in
the falsy-name case (empty name) and the conversation's own name otherwise,
and its user name is `"Unknown"` when no user carries the referenced uuid
and the first matching user's `full_name` otherwise. -/
theorem c7_fallback_laws (getTime : String → Int) (users : List User) (conversations : List Conversation)
    (conv : Conversation) (hc : conv ∈ conversations) :
    convDetail users conv ∈ calculateConversationDetails getTime conversations users ∧
    (convDetail users conv).name = (if conv.name = "" then "Untitled" else conv.name) ∧
    ((∀ u ∈ users, u.uuid ≠ conv.account.uuid) → (convDetail users conv).userName = "Unknown") ∧
    (∀ u : User, users.find? (fun x => x.uuid == conv.account.uuid) = some u →
      (convDetail users conv).userName = u.full_name) := by
  refine ⟨?_, ?_, ?_, ?_⟩
  · rw [calculateConversationDetails, List.mem_insertionSort, List.mem_map]
    exact ⟨conv, hc, rfl⟩
  · by_cases h : conv.name = "" <;> simp [convDetail, h]
  · intro hnone
    have hfind : users.find? (fun x => x.uuid == conv.account.uuid) = none :=
      List.find?_eq_none.mpr (fun x hx => by simpa using hnone x hx)
    simp [convDetail, getUserName, hfind]
  · intro u hfind
    simp [convDetail, getUserName, hfind]

/-- A conversation with an empty name and an unresolvable account
reference, used to witness C7's fallbacks. -/
def fixtureConvUntitled : Conversation :=
  ⟨"conv-1", "", "", "2024-01-01T10:00:00Z", "2024-01-01T10:00:00Z", ⟨"nobody"⟩, []⟩

/-- Witness for C7 at a concrete input: the empty name renders as
`"Untitled"` and the unresolved reference as `"Unknown"`. -/
theorem c7_fallback_laws_witness :
    convDetail [fixtureUserA] fixtureConvUntitled ∈
      calculateConversationDetails gtZero [fixtureConvUntitled] [fixtureUserA] ∧
    (convDetail [fixtureUserA] fixtureConvUntitled).name =
      (if fixtureConvUntitled.name = "" then "Untitled" else fixtureConvUntitled.name) ∧
    ((∀ u ∈ [fixtureUserA], u.uuid ≠ fixtureConvUntitled.account.uuid) →
      (convDetail [fixtureUserA] fixtureConvUntitled).userName = "Unknown") ∧
    (∀ u : User, [fixtureUserA].find? (fun x => x.uuid == fixtureConvUntitled.account.uuid) = some u →
      (convDetail [fixtureUserA] fixtureConvUntitled).userName = u.full_name) :=
  c7_fallback_laws gtZero [fixtureUserA] [fixtureConvUntitled] fixtureConvUntitled (by decide)

/-- The C10 record invariant: every key is a non-empty tool name and every
count is at least one. -/
def toolRecOk (m : List (String × Nat)) : Prop :=
  ∀ kv ∈ m, kv.1 ≠ "" ∧ 1 ≤ kv.2

theorem toolRecOk_nil : toolRecOk [] := by
  intro kv h
  simp at h

theorem toolRecOk_bumpTool {m : List (String × Nat)} {n : String}
    (hm : toolRecOk m) (hn : n ≠ "") : toolRecOk (bumpTool m n) := by
  induction m with
  | nil =>
    intro kv hkv
    simp [bumpTool] at hkv
    simp [hkv, hn]
  | cons kv0 rest ih =>
    obtain ⟨k, v⟩ := kv0
    have hrest : toolRecOk rest := fun kv hkv => hm kv (List.mem_cons_of_mem _ hkv)
    have hhead := hm (k, v) (List.mem_cons_self _ _)
    rw [bumpTool]
    by_cases h : (k == n) = true
    · rw [if_pos h]
      intro kv hkv
      rcases List.mem_cons.mp hkv with h1 | h1
      · rw [h1]
        exact ⟨hhead.1, by omega⟩
      · exact hrest kv h1
    · rw [if_neg h]
      intro kv hkv
      rcases List.mem_cons.mp hkv with h1 | h1
      · rw [h1]; exact hhead
      · exact ih hrest kv h1

theorem toolRecOk_toolStep {m : List (String × Nat)} (c : ContentItem)
    (hm : toolRecOk m) : toolRecOk (toolStep m c) := by
  rw [toolStep]
  by_cases ht : (c.type == "tool_use") = true
  · rw [if_pos ht]
    cases hn : c.name with
    | none => exact hm
    | some n =>
      show toolRecOk (if n == "" then m else bumpTool m n)
      by_cases he : (n == "") = true
      · rw [if_pos he]; exact hm
      · rw [if_neg he]
        exact toolRecOk_bumpTool hm (by simpa using he)
  · rw [if_neg ht]
    exact hm

theorem toolRecOk_foldl_toolStep (cs : List ContentItem) :
    ∀ m : List (String × Nat), toolRecOk m → toolRecOk (cs.foldl toolStep m) := by
  induction cs with
  | nil => exact fun m hm => hm
  | cons c rest ih =>
    intro m hm
    exact ih _ (toolRecOk_toolStep c hm)

theorem toolRecOk_foldl_blockStep (cs : List ContentItem) :
    ∀ acc : Nat × List (String × Nat), toolRecOk acc.2 → toolRecOk ((cs.foldl blockStep acc).2) := by
  induction cs with
  | nil => exact fun acc h => h
  | cons c rest ih =>
    intro acc hacc
    exact ih _ (toolRecOk_toolStep c hacc)

theorem toolRecOk_scanBlocks (msgs : List ChatMessage) :
    toolRecOk (scanBlocks msgs).2 := by
  rw [scanBlocks]
  generalize hinit : ((0, []) : Nat × List (String × Nat)) = acc
  have hacc : toolRecOk acc.2 := by rw [← hinit]; exact toolRecOk_nil
  clear hinit
  induction msgs generalizing acc with
  | nil => exact hacc
  | cons msg rest ih =>
    exact ih _ (toolRecOk_foldl_blockStep _ _ hacc)

theorem toolRecOk_msgFold (msgs : List ChatMessage) :
    ∀ m : List (String × Nat), toolRecOk m →
      toolRecOk (msgs.foldl (fun acc2 msg => (contentList msg).foldl toolStep acc2) m) := by
  induction msgs with
  | nil => exact fun m hm => hm
  | cons msg rest ih =>
    intro m hm
    exact ih _ (toolRecOk_foldl_toolStep _ _ hm)

theorem toolRecOk_convFold (conversations : List Conversation) :
    ∀ m : List (String × Nat), toolRecOk m →
      toolRecOk (conversations.foldl
        (fun acc c => c.chat_messages.foldl
          (fun acc2 msg => (contentList msg).foldl toolStep acc2) acc) m) := by
  induction conversations with
  | nil => exact fun m hm => hm
  | cons c rest ih =>
    intro m hm
    exact ih _ (toolRecOk_msgFold _ _ hm)

/-- C10: a `tool_use` block with an absent or empty name is never counted:
in all three derived outputs every tool key is a non-empty string and every
associated count is at least `1`. -/
theorem c10_tool_name_invariant (getTime : String → Int) (users : List User) (conversations : List Conversation) :
    (∀ s ∈ calculateStats getTime users conversations, ∀ kv ∈ s.toolUses, kv.1 ≠ "" ∧ 1 ≤ kv.2) ∧
    (∀ t ∈ calculateToolUsage conversations, t.name ≠ "" ∧ 1 ≤ t.count) ∧
    (∀ d ∈ calculateConversationDetails getTime conversations users,
      ∀ kv ∈ d.toolsUsed, kv.1 ≠ "" ∧ 1 ≤ kv.2) := by
  refine ⟨?_, ?_, ?_⟩
  · intro s hs
    rw [calculateStats, List.mem_insertionSort, List.mem_map] at hs
    obtain ⟨u, _, rfl⟩ := hs
    exact toolRecOk_scanBlocks _
  · intro t ht
    rw [calculateToolUsage, List.mem_insertionSort, List.mem_map] at ht
    obtain ⟨kv, hkv, rfl⟩ := ht
    exact toolRecOk_convFold conversations [] toolRecOk_nil kv hkv
  · intro d hd
    rw [calculateConversationDetails, List.mem_insertionSort, List.mem_map] at hd
    obtain ⟨conv, _, rfl⟩ := hd
    exact toolRecOk_scanBlocks _

/-- C5: `calculateStats` output is pairwise descending in conversation
count, and the sort is stable: two users appearing in this order in the
input whose stats tie on conversation count keep that order. -/
theorem c5_sorted_stable (getTime : String → Int) (users : List User) (conversations : List Conversation) :
    (calculateStats getTime users conversations).Pairwise
      (fun a b => b.conversationCount ≤ a.conversationCount) ∧
    (∀ u v : User, [u, v].Sublist users →
      (statsFor getTime conversations u).conversationCount =
        (statsFor getTime conversations v).conversationCount →
      [statsFor getTime conversations u, statsFor getTime conversations v].Sublist
        (calculateStats getTime users conversations)) := by
  constructor
  · exact List.sorted_insertionSort statsLe _
  · intro u v hsub heq
    refine List.pair_sublist_insertionSort ?_ ?_
    · exact le_of_eq heq.symm
    · simpa using hsub.map (statsFor getTime conversations)

/-- A second user fixture for stability witnesses. -/
def fixtureUserB : User := ⟨"user-b", "Bob", "bob@example.com", ""⟩

/-- Witness for C5 at a concrete input: Alice and Bob both have zero
conversations, so their stats tie and keep input order. -/
theorem c5_sorted_stable_witness :
    (calculateStats gtZero [fixtureUserA, fixtureUserB] []).Pairwise
      (fun a b => b.conversationCount ≤ a.conversationCount) ∧
    [statsFor gtZero [] fixtureUserA, statsFor gtZero [] fixtureUserB].Sublist
      (calculateStats gtZero [fixtureUserA, fixtureUserB] []) := by
  have h := c5_sorted_stable gtZero [fixtureUserA, fixtureUserB] []
  exact ⟨h.1, h.2 fixtureUserA fixtureUserB (by decide) (by decide)⟩

/-- A conversation carrying thinking and tool_use blocks (including blocks
with an absent and with an empty tool name), used to witness C10. -/
def fixtureConvTools : Conversation :=
  ⟨"conv-2", "Tools", "", "2024-01-01T10:00:00Z", "2024-01-01T10:00:00Z", ⟨"user-a"⟩,
   [⟨"m1", some "hi", "human", "", "",
     some [⟨"tool_use", none, some "web_search"⟩, ⟨"tool_use", none, some "web_search"⟩,
           ⟨"thinking", none, none⟩, ⟨"tool_use", none, some ""⟩, ⟨"tool_use", none, none⟩]⟩]⟩

/-- Witness for C10 at a concrete input containing absent-name and
empty-name `tool_use` blocks. -/
theorem c10_tool_name_invariant_witness :
    (⟨"web_search", 2⟩ : ToolUsageEntry) ∈ calculateToolUsage [fixtureConvTools] ∧
    (⟨"web_search", 2⟩ : ToolUsageEntry).name ≠ "" ∧
    1 ≤ (⟨"web_search", 2⟩ : ToolUsageEntry).count := by
  have h := (c10_tool_name_invariant gtZero [fixtureUserA] [fixtureConvTools]).2.1
      ⟨"web_search", 2⟩ (by decide)
  exact ⟨by decide, h.1, h.2⟩

/-- The `messageCount` field of a user's stats is the sum of the message
counts of that user's conversations. -/
theorem statsFor_messageCount (getTime : String → Int) (conversations : List Conversation) (u : User) :
    (statsFor getTime conversations u).messageCount =
      ((conversations.filter (fun c => c.account.uuid == u.uuid)).map
        (fun c => c.chat_messages.length)).sum := by
  show ((conversations.filter (fun c => c.account.uuid == u.uuid)).flatMap
    (fun c => c.chat_messages)).length = _
  rw [List.length_flatMap]
  rfl

theorem sum_ite_uuid_zero (users : List User) (k : String) (v : Nat)
    (hk : k ∉ users.map (fun u => u.uuid)) :
    (users.map (fun u => if k == u.uuid then v else 0)).sum = 0 := by
  induction users with
  | nil => rfl
  | cons u0 rest ih =>
    simp only [List.map_cons, List.mem_cons, not_or] at hk
    simp only [List.map_cons, List.sum_cons]
    rw [if_neg (by simpa using hk.1), ih hk.2]

/-- Summing an indicator over a duplicate-free key list that contains the
key yields the indicated value exactly once. -/
theorem sum_ite_uuid (users : List User) (k : String) (v : Nat)
    (hnd : (users.map (fun u => u.uuid)).Nodup)
    (hk : k ∈ users.map (fun u => u.uuid)) :
    (users.map (fun u => if k == u.uuid then v else 0)).sum = v := by
  induction users with
  | nil => simp at hk
  | cons u0 rest ih =>
    simp only [List.map_cons, List.nodup_cons] at hnd
    simp only [List.map_cons, List.sum_cons]
    rcases List.mem_cons.mp hk with h1 | h1
    · rw [if_pos (by simpa using h1)]
      rw [sum_ite_uuid_zero rest k v (by rw [h1]; exact hnd.1)]
      simp
    · have hne : k ≠ u0.uuid := fun hcontra => hnd.1 (hcontra ▸ h1)
      rw [if_neg (by simpa using hne), ih hnd.2 h1]
      simp

/-- Double counting: with duplicate-free user uuids, each covered
conversation is counted by exactly one user. -/
theorem sum_user_message_totals (users : List User) (conversations : List Conversation)
    (hnd : (users.map (fun u => u.uuid)).Nodup)
    (hcov : ∀ c ∈ conversations, c.account.uuid ∈ users.map (fun u => u.uuid)) :
    (users.map (fun u =>
      ((conversations.filter (fun c => c.account.uuid == u.uuid)).map
        (fun c => c.chat_messages.length)).sum)).sum =
    (conversations.map (fun c => c.chat_messages.length)).sum := by
  induction conversations with
  | nil => simp
  | cons c rest ih =>
    have hrest : ∀ x ∈ rest, x.account.uuid ∈ users.map (fun u => u.uuid) :=
      fun x hx => hcov x (List.mem_cons_of_mem _ hx)
    have hc : c.account.uuid ∈ users.map (fun u => u.uuid) :=
      hcov c (List.mem_cons_self _ _)
    have hsplit : (users.map (fun u =>
        (((c :: rest).filter (fun x => x.account.uuid == u.uuid)).map
          (fun x => x.chat_messages.length)).sum)) =
        users.map (fun u =>
          (if c.account.uuid == u.uuid then c.chat_messages.length else 0) +
          ((rest.filter (fun x => x.account.uuid == u.uuid)).map
            (fun x => x.chat_messages.length)).sum) := by
      refine List.map_congr_left (fun u _ => ?_)
      rw [List.filter_cons]
      by_cases h : (c.account.uuid == u.uuid) = true
      · rw [if_pos h, if_pos h, List.map_cons, List.sum_cons]
      · rw [if_neg h, if_neg h, Nat.zero_add]
    rw [hsplit, List.sum_map_add, sum_ite_uuid users _ _ hnd hc, ih hrest,
      List.map_cons, List.sum_cons]

/-- C4: with pairwise-distinct user uuids and every conversation's account
reference resolving to some user, the `messageCount` fields of
`calculateStats` sum to the total number of messages across all
conversations. -/
theorem c4_message_sum_law (getTime : String → Int) (users : List User) (conversations : List Conversation)
    (hnd : (users.map (fun u => u.uuid)).Nodup)
    (hcov : ∀ c ∈ conversations, c.account.uuid ∈ users.map (fun u => u.uuid)) :
    ((calculateStats getTime users conversations).map (fun s => s.messageCount)).sum =
    (conversations.map (fun c => c.chat_messages.length)).sum := by
  have hperm : (calculateStats getTime users conversations).Perm
      (users.map (statsFor getTime conversations)) :=
    List.perm_insertionSort statsLe _
  rw [(hperm.map (fun s => s.messageCount)).sum_eq, List.map_map]
  have hfun : ((fun s : UserStats => s.messageCount) ∘ statsFor getTime conversations) =
      fun u => ((conversations.filter (fun c => c.account.uuid == u.uuid)).map
        (fun c => c.chat_messages.length)).sum :=
    funext (fun u => statsFor_messageCount getTime conversations u)
  rw [hfun]
  exact sum_user_message_totals users conversations hnd hcov

/-- A conversation of Alice with two messages, used to witness C4. -/
def fixtureConvAlice : Conversation :=
  ⟨"conv-3", "Chat", "", "2024-01-01T10:00:00Z", "2024-01-01T10:00:00Z", ⟨"user-a"⟩,
   [⟨"m1", some "hi", "human", "", "", some []⟩,
    ⟨"m2", some "hello", "assistant", "", "", none⟩]⟩

/-- Witness for C4 at a concrete input: distinct uuids, every conversation
covered, and the stats message counts sum to the global total. -/
theorem c4_message_sum_law_witness :
    ((calculateStats gtZero [fixtureUserA, fixtureUserB] [fixtureConvAlice, fixtureConvTools]).map
      (fun s => s.messageCount)).sum =
    ([fixtureConvAlice, fixtureConvTools].map (fun c => c.chat_messages.length)).sum :=
  c4_message_sum_law gtZero [fixtureUserA, fixtureUserB] [fixtureConvAlice, fixtureConvTools]
    (by decide) (by decide)

/-- Unfolding of lexicographic comparison on a cons pair. -/
theorem charListLe_cons_iff (a b : Char) (as bs : List Char) :
    charListLe (a :: as) (b :: bs) = true ↔
      (a.toNat < b.toNat ∨ (a.toNat = b.toNat ∧ charListLe as bs = true)) := by
  simp only [charListLe]
  by_cases h1 : a.toNat < b.toNat
  · simp [h1]
  · by_cases h2 : b.toNat < a.toNat
    · simp only [if_neg h1, if_pos h2]
      constructor
      · intro h
        exact Bool.noConfusion h
      · rintro (h | ⟨h, _⟩) <;> omega
    · have he : a.toNat = b.toNat := by omega
      simp [if_neg h1, if_neg h2, he]

theorem charListLe_total : ∀ xs ys : List Char, charListLe xs ys = true ∨ charListLe ys xs = true
  | [], _ => Or.inl rfl
  | _ :: _, [] => Or.inr rfl
  | a :: as, b :: bs => by
    rcases Nat.lt_trichotomy a.toNat b.toNat with h | h | h
    · exact Or.inl ((charListLe_cons_iff a b as bs).mpr (Or.inl h))
    · rcases charListLe_total as bs with hr | hr
      · exact Or.inl ((charListLe_cons_iff a b as bs).mpr (Or.inr ⟨h, hr⟩))
      · exact Or.inr ((charListLe_cons_iff b a bs as).mpr (Or.inr ⟨h.symm, hr⟩))
    · exact Or.inr ((charListLe_cons_iff b a bs as).mpr (Or.inl h))

theorem charListLe_trans : ∀ xs ys zs : List Char,
    charListLe xs ys = true → charListLe ys zs = true → charListLe xs zs = true
  | [], _, _, _, _ => rfl
  | _ :: _, [], _, h, _ => by simp [charListLe] at h
  | _ :: _, _ :: _, [], _, h => by simp [charListLe] at h
  | a :: as, b :: bs, c :: cs, h1, h2 => by
    rcases (charListLe_cons_iff a b as bs).mp h1 with hab | ⟨hab, hr1⟩ <;>
      rcases (charListLe_cons_iff b c bs cs).mp h2 with hbc | ⟨hbc, hr2⟩
    · exact (charListLe_cons_iff a c as cs).mpr (Or.inl (by omega))
    · exact (charListLe_cons_iff a c as cs).mpr (Or.inl (by omega))
    · exact (charListLe_cons_iff a c as cs).mpr (Or.inl (by omega))
    · exact (charListLe_cons_iff a c as cs).mpr
        (Or.inr ⟨by omega, charListLe_trans as bs cs hr1 hr2⟩)

instance : IsTotal (String × Nat × Nat) dayKeyLe :=
  ⟨fun a b => charListLe_total a.1.data b.1.data⟩

instance : IsTrans (String × Nat × Nat) dayKeyLe :=
  ⟨fun _ _ _ h1 h2 => charListLe_trans _ _ _ h1 h2⟩

/-- The number of conversations whose creation date prefix is `k`. -/
def dayConvCount (conversations : List Conversation) (k : String) : Nat :=
  (conversations.filter (fun c => slice10 c.created_at == k)).length

/-- The total message count of the conversations whose creation date prefix
is `k`. -/
def dayMsgCount (conversations : List Conversation) (k : String) : Nat :=
  ((conversations.filter (fun c => slice10 c.created_at == k)).map
    (fun c => c.chat_messages.length)).sum

/-- The conversation total the grouping record associates with key `k`. -/
def keyConvs (m : List (String × Nat × Nat)) (k : String) : Nat :=
  ((m.filter (fun e => e.1 == k)).map (fun e => e.2.1)).sum

/-- The message total the grouping record associates with key `k`. -/
def keyMsgs (m : List (String × Nat × Nat)) (k : String) : Nat :=
  ((m.filter (fun e => e.1 == k)).map (fun e => e.2.2)).sum

theorem keyConvs_cons (e : String × Nat × Nat) (m : List (String × Nat × Nat)) (k : String) :
    keyConvs (e :: m) k = (if e.1 == k then e.2.1 else 0) + keyConvs m k := by
  rw [keyConvs, List.filter_cons]
  by_cases h : (e.1 == k) = true
  · simp [h, keyConvs]
  · simp [h, keyConvs]

theorem keyMsgs_cons (e : String × Nat × Nat) (m : List (String × Nat × Nat)) (k : String) :
    keyMsgs (e :: m) k = (if e.1 == k then e.2.2 else 0) + keyMsgs m k := by
  rw [keyMsgs, List.filter_cons]
  by_cases h : (e.1 == k) = true
  · simp [h, keyMsgs]
  · simp [h, keyMsgs]

theorem keyConvs_eq_zero (m : List (String × Nat × Nat)) (k : String)
    (h : k ∉ m.map (fun e => e.1)) : keyConvs m k = 0 ∧ keyMsgs m k = 0 := by
  induction m with
  | nil => exact ⟨rfl, rfl⟩
  | cons e rest ih =>
    simp only [List.map_cons, List.mem_cons, not_or] at h
    rw [keyConvs_cons, keyMsgs_cons, if_neg (by simpa using fun hh : e.1 = k => h.1 hh.symm),
      if_neg (by simpa using fun hh : e.1 = k => h.1 hh.symm)]
    have := ih h.2
    omega

theorem dayStep_key_sums (m : List (String × Nat × Nat)) (day k : String) (n : Nat) :
    keyConvs (dayStep m day n) k = keyConvs m k + (if k = day then 1 else 0) ∧
    keyMsgs (dayStep m day n) k = keyMsgs m k + (if k = day then n else 0) := by
  induction m with
  | nil =>
    by_cases h : k = day
    · subst h
      simp [dayStep, keyConvs_cons, keyMsgs_cons, keyConvs, keyMsgs]
    · have hbf : (day == k) = false := by simpa using fun hh : day = k => h hh.symm
      simp [dayStep, keyConvs_cons, keyMsgs_cons, keyConvs, keyMsgs, hbf, h]
  | cons e rest ih =>
    obtain ⟨k0, cs, ms⟩ := e
    by_cases h0 : k0 = day
    · subst h0
      rw [show dayStep ((k0, cs, ms) :: rest) k0 n = (k0, cs + 1, ms + n) :: rest from by
        simp [dayStep]]
      by_cases hk : k = k0
      · subst hk
        have hbt : (k == k) = true := by simp
        simp only [keyConvs_cons, keyMsgs_cons, hbt, if_true, if_pos rfl]
        constructor <;> omega
      · have hbf : (k0 == k) = false := by simpa using fun hh : k0 = k => hk hh.symm
        simp [keyConvs_cons, keyMsgs_cons, hbf, hk]
    · have hbf0 : (k0 == day) = false := by simpa using h0
      rw [show dayStep ((k0, cs, ms) :: rest) day n = (k0, cs, ms) :: dayStep rest day n from by
        simp [dayStep, hbf0]]
      rw [keyConvs_cons, keyConvs_cons, keyMsgs_cons, keyMsgs_cons, ih.1, ih.2,
        ← Nat.add_assoc, ← Nat.add_assoc]
      exact ⟨rfl, rfl⟩

theorem mem_keys_dayStep (m : List (String × Nat × Nat)) (day k : String) (n : Nat) :
    k ∈ (dayStep m day n).map (fun e => e.1) ↔
      (k ∈ m.map (fun e => e.1) ∨ k = day) := by
  induction m with
  | nil => simp [dayStep, eq_comm]
  | cons e rest ih =>
    obtain ⟨k0, cs, ms⟩ := e
    by_cases h0 : k0 = day
    · subst h0
      rw [show dayStep ((k0, cs, ms) :: rest) k0 n = (k0, cs + 1, ms + n) :: rest from by
        simp [dayStep]]
      simp only [List.map_cons, List.mem_cons]
      tauto
    · have hbf0 : (k0 == day) = false := by simpa using h0
      rw [show dayStep ((k0, cs, ms) :: rest) day n = (k0, cs, ms) :: dayStep rest day n from by
        simp [dayStep, hbf0]]
      simp only [List.map_cons, List.mem_cons, ih]
      tauto

theorem nodup_keys_dayStep (m : List (String × Nat × Nat)) (day : String) (n : Nat)
    (h : (m.map (fun e => e.1)).Nodup) :
    ((dayStep m day n).map (fun e => e.1)).Nodup := by
  induction m with
  | nil => simp [dayStep]
  | cons e rest ih =>
    obtain ⟨k0, cs, ms⟩ := e
    simp only [List.map_cons, List.nodup_cons] at h
    by_cases h0 : k0 = day
    · subst h0
      rw [show dayStep ((k0, cs, ms) :: rest) k0 n = (k0, cs + 1, ms + n) :: rest from by
        simp [dayStep]]
      simp only [List.map_cons, List.nodup_cons]
      exact h
    · have hbf0 : (k0 == day) = false := by simpa using h0
      rw [show dayStep ((k0, cs, ms) :: rest) day n = (k0, cs, ms) :: dayStep rest day n from by
        simp [dayStep, hbf0]]
      simp only [List.map_cons, List.nodup_cons]
      refine ⟨?_, ih h.2⟩
      rw [mem_keys_dayStep]
      rintro (hmem | rfl)
      · exact h.1 hmem
      · exact h0 rfl

theorem foldl_dayStep_key_sums (conversations : List Conversation) :
    ∀ (m : List (String × Nat × Nat)) (k : String),
      keyConvs (conversations.foldl
        (fun acc c => dayStep acc (slice10 c.created_at) c.chat_messages.length) m) k =
        keyConvs m k + dayConvCount conversations k ∧
      keyMsgs (conversations.foldl
        (fun acc c => dayStep acc (slice10 c.created_at) c.chat_messages.length) m) k =
        keyMsgs m k + dayMsgCount conversations k := by
  induction conversations with
  | nil => simp [dayConvCount, dayMsgCount]
  | cons c rest ih =>
    intro m k
    rw [List.foldl_cons]
    obtain ⟨ihc, ihm⟩ := ih (dayStep m (slice10 c.created_at) c.chat_messages.length) k
    obtain ⟨hdc, hdm⟩ := dayStep_key_sums m (slice10 c.created_at) k c.chat_messages.length
    rw [dayConvCount, dayMsgCount, List.filter_cons]
    by_cases h : k = slice10 c.created_at
    · have hbt : (slice10 c.created_at == k) = true := by simp [h]
      rw [if_pos hbt]
      refine ⟨?_, ?_⟩
      · rw [ihc, hdc, if_pos h]
        simp [dayConvCount]
        omega
      · rw [ihm, hdm, if_pos h]
        simp [dayMsgCount]
        omega
    · have hbf : (slice10 c.created_at == k) = false := by
        simpa using fun hh : slice10 c.created_at = k => h hh.symm
      rw [if_neg (by simp [hbf])]
      refine ⟨?_, ?_⟩
      · rw [ihc, hdc, if_neg h]
        simp [dayConvCount]
      · rw [ihm, hdm, if_neg h]
        simp [dayMsgCount]

theorem foldl_dayStep_mem_keys (conversations : List Conversation) :
    ∀ (m : List (String × Nat × Nat)) (k : String),
      k ∈ (conversations.foldl
        (fun acc c => dayStep acc (slice10 c.created_at) c.chat_messages.length) m).map (fun e => e.1) ↔
      (k ∈ m.map (fun e => e.1) ∨ ∃ c ∈ conversations, slice10 c.created_at = k) := by
  induction conversations with
  | nil => simp
  | cons c rest ih =>
    intro m k
    rw [List.foldl_cons, ih, mem_keys_dayStep]
    constructor
    · rintro ((h | h) | h)
      · exact Or.inl h
      · exact Or.inr ⟨c, List.mem_cons_self _ _, h.symm⟩
      · obtain ⟨c2, hc2, hk⟩ := h
        exact Or.inr ⟨c2, List.mem_cons_of_mem _ hc2, hk⟩
    · rintro (h | ⟨c2, hc2, hk⟩)
      · exact Or.inl (Or.inl h)
      · rcases List.mem_cons.mp hc2 with rfl | h2
        · exact Or.inl (Or.inr hk.symm)
        · exact Or.inr ⟨c2, h2, hk⟩

theorem foldl_dayStep_nodup_keys (conversations : List Conversation) :
    ∀ m : List (String × Nat × Nat), (m.map (fun e => e.1)).Nodup →
      ((conversations.foldl
        (fun acc c => dayStep acc (slice10 c.created_at) c.chat_messages.length) m).map
          (fun e => e.1)).Nodup := by
  induction conversations with
  | nil => exact fun m hm => hm
  | cons c rest ih =>
    intro m hm
    rw [List.foldl_cons]
    exact ih _ (nodup_keys_dayStep m _ _ hm)

/-- In a grouping record with duplicate-free keys, each entry's stored
totals are exactly the record's totals for its key. -/
theorem key_sums_of_mem_nodup (m : List (String × Nat × Nat))
    (hnd : (m.map (fun e => e.1)).Nodup) (e : String × Nat × Nat) (he : e ∈ m) :
    keyConvs m e.1 = e.2.1 ∧ keyMsgs m e.1 = e.2.2 := by
  induction m with
  | nil => simp at he
  | cons f rest ih =>
    simp only [List.map_cons, List.nodup_cons] at hnd
    rcases List.mem_cons.mp he with rfl | he2
    · rw [keyConvs_cons, keyMsgs_cons, if_pos (by simp), if_pos (by simp)]
      have hz := keyConvs_eq_zero rest e.1 hnd.1
      omega
    · have hne : (f.1 == e.1) = false := by
        simpa using fun hh : f.1 = e.1 =>
          hnd.1 (hh ▸ List.mem_map.mpr ⟨e, he2, rfl⟩)
      rw [keyConvs_cons, keyMsgs_cons, if_neg (by simp [hne]), if_neg (by simp [hne])]
      have := ih hnd.2 he2
      omega

/-- C6: `calculateDailyActivity` has duplicate-free date keys; a date key
appears exactly when some conversation's `created_at` starts with it; every
entry counts exactly the conversations with that 10-character prefix and
sums exactly their message counts; and the entries are sorted ascending by
date key under lexicographic string comparison. -/
theorem c6_daily_activity (conversations : List Conversation) :
    ((calculateDailyActivity conversations).map (fun e => e.date)).Nodup ∧
    (∀ k : String, k ∈ (calculateDailyActivity conversations).map (fun e => e.date) ↔
      ∃ c ∈ conversations, slice10 c.created_at = k) ∧
    (∀ e ∈ calculateDailyActivity conversations,
      e.conversations = dayConvCount conversations e.date ∧
      e.messages = dayMsgCount conversations e.date) ∧
    ((calculateDailyActivity conversations).map (fun e => e.date)).Pairwise
      (fun a b => strLe a b = true) := by
  have hperm : ((dayMap conversations).insertionSort dayKeyLe).Perm (dayMap conversations) :=
    List.perm_insertionSort dayKeyLe _
  have hkeys : ((calculateDailyActivity conversations).map (fun e => e.date)) =
      ((dayMap conversations).insertionSort dayKeyLe).map (fun e => e.1) := by
    rw [calculateDailyActivity, List.map_map]
    rfl
  have hnodupDay : ((dayMap conversations).map (fun e => e.1)).Nodup := by
    rw [dayMap]
    exact foldl_dayStep_nodup_keys conversations [] (by simp)
  refine ⟨?_, ?_, ?_, ?_⟩
  · rw [hkeys]
    exact ((hperm.map (fun e => e.1)).nodup_iff).mpr hnodupDay
  · intro k
    rw [hkeys, (hperm.map (fun e => e.1)).mem_iff, dayMap]
    simpa using foldl_dayStep_mem_keys conversations [] k
  · intro e he
    rw [calculateDailyActivity, List.mem_map] at he
    obtain ⟨t, ht, rfl⟩ := he
    have ht2 : t ∈ dayMap conversations := hperm.mem_iff.mp ht
    have hsum := key_sums_of_mem_nodup (dayMap conversations) hnodupDay t ht2
    have hfold := foldl_dayStep_key_sums conversations [] t.1
    rw [dayMap] at hsum
    refine ⟨?_, ?_⟩
    · show t.2.1 = dayConvCount conversations t.1
      have h1 := hfold.1
      have h2 := hsum.1
      have h0 : keyConvs [] t.1 = 0 := rfl
      omega
    · show t.2.2 = dayMsgCount conversations t.1
      have h1 := hfold.2
      have h2 := hsum.2
      have h0 : keyMsgs [] t.1 = 0 := rfl
      omega
  · rw [hkeys, List.pairwise_map]
    exact List.sorted_insertionSort dayKeyLe _

/-- A third conversation fixture, created the next day with one message. -/
def fixtureConvDay2 : Conversation :=
  ⟨"conv-4", "Later", "", "2024-01-02T09:00:00Z", "2024-01-02T09:00:00Z", ⟨"user-a"⟩,
   [⟨"m9", some "ping", "human", "", "", some []⟩]⟩

/-- Witness for C6 at a concrete input: two conversations on 2024-01-01
with 2 + 1 messages and one on 2024-01-02 group into two sorted entries. -/
theorem c6_daily_activity_witness :
    (((calculateDailyActivity [fixtureConvAlice, fixtureConvTools, fixtureConvDay2]).map
      (fun e => e.date)).Nodup) ∧
    ((⟨"2024-01-01", 2, 3⟩ : DailyActivity).conversations =
      dayConvCount [fixtureConvAlice, fixtureConvTools, fixtureConvDay2]
        (⟨"2024-01-01", 2, 3⟩ : DailyActivity).date) ∧
    ((⟨"2024-01-01", 2, 3⟩ : DailyActivity).messages =
      dayMsgCount [fixtureConvAlice, fixtureConvTools, fixtureConvDay2]
        (⟨"2024-01-01", 2, 3⟩ : DailyActivity).date) := by
  have h := c6_daily_activity [fixtureConvAlice, fixtureConvTools, fixtureConvDay2]
  have he := h.2.2.1 ⟨"2024-01-01", 2, 3⟩ (by decide)
  exact ⟨h.1, he.1, he.2⟩

/-! ## Loader lemmas -/

/-- An entry the scanning loop recognises: a non-directory whose lowered
basename is one of the three expected file names. -/
def matchedName (e : ZipEntry) : Bool :=
  !e.isDir && (lowerBasename e.path == "users.json" ||
    lowerBasename e.path == "conversations.json" ||
    lowerBasename e.path == "projects.json")

/-- Whether the entry's content parsed successfully. -/
def parsedOk (e : ZipEntry) : Bool :=
  match e.parsed with
  | .ok _ => true
  | .error _ => false

/-- Whether the archive contains a non-directory entry with the given
lowered basename. -/
def hasFile (entries : List ZipEntry) (nm : String) : Bool :=
  entries.any (fun e => !e.isDir && (lowerBasename e.path == nm))

theorem scan_ok_all_parsed : ∀ (entries : List ZipEntry) (u c : Option Json) (p : Json)
    (r : Option Json × Option Json × Json),
    scanLoop entries u c p = .ok r → ∀ e ∈ entries, matchedName e = true → parsedOk e = true := by
  intro entries
  induction entries with
  | nil =>
    intro u c p r _ e he
    simp at he
  | cons e0 rest ih =>
    intro u c p r h e he hm
    rw [scanLoop] at h
    by_cases hd : e0.isDir
    · rw [if_pos hd] at h
      rcases List.mem_cons.mp he with rfl | he2
      · rw [matchedName] at hm
        simp [hd] at hm
      · exact ih u c p r h e he2 hm
    · rw [if_neg hd] at h
      by_cases h1 : (lowerBasename e0.path == "users.json") = true
      · rw [if_pos h1] at h
        cases hp : e0.parsed with
        | error m =>
          rw [hp] at h
          exact Except.noConfusion h
        | ok j =>
          rw [hp] at h
          rcases List.mem_cons.mp he with rfl | he2
          · simp [parsedOk, hp]
          · exact ih _ _ _ r h e he2 hm
      · rw [if_neg h1] at h
        by_cases h2 : (lowerBasename e0.path == "conversations.json") = true
        · rw [if_pos h2] at h
          cases hp : e0.parsed with
          | error m =>
            rw [hp] at h
            exact Except.noConfusion h
          | ok j =>
            rw [hp] at h
            rcases List.mem_cons.mp he with rfl | he2
            · simp [parsedOk, hp]
            · exact ih _ _ _ r h e he2 hm
        · rw [if_neg h2] at h
          by_cases h3 : (lowerBasename e0.path == "projects.json") = true
          · rw [if_pos h3] at h
            cases hp : e0.parsed with
            | error m =>
              rw [hp] at h
              exact Except.noConfusion h
            | ok j =>
              rw [hp] at h
              rcases List.mem_cons.mp he with rfl | he2
              · simp [parsedOk, hp]
              · exact ih _ _ _ r h e he2 hm
          · rw [if_neg h3] at h
            rcases List.mem_cons.mp he with rfl | he2
            · rw [matchedName] at hm
              simp [hd, h1, h2, h3] at hm
            · exact ih _ _ _ r h e he2 hm

theorem scan_ok_of_all_parsed : ∀ (entries : List ZipEntry) (u c : Option Json) (p : Json),
    (∀ e ∈ entries, matchedName e = true → parsedOk e = true) →
    ∃ r, scanLoop entries u c p = .ok r := by
  intro entries
  induction entries with
  | nil => exact fun u c p _ => ⟨(u, c, p), rfl⟩
  | cons e0 rest ih =>
    intro u c p hall
    have hrest : ∀ e ∈ rest, matchedName e = true → parsedOk e = true :=
      fun e he => hall e (List.mem_cons_of_mem _ he)
    rw [scanLoop]
    by_cases hd : e0.isDir
    · rw [if_pos hd]
      exact ih u c p hrest
    · rw [if_neg hd]
      by_cases h1 : (lowerBasename e0.path == "users.json") = true
      · rw [if_pos h1]
        have hok := hall e0 (List.mem_cons_self _ _)
          (by simp [matchedName, hd, h1])
        cases hp : e0.parsed with
        | error m =>
          rw [parsedOk, hp] at hok
          exact Bool.noConfusion hok
        | ok j =>
          exact ih _ _ _ hrest
      · rw [if_neg h1]
        by_cases h2 : (lowerBasename e0.path == "conversations.json") = true
        · rw [if_pos h2]
          have hok := hall e0 (List.mem_cons_self _ _)
            (by simp [matchedName, hd, h2])
          cases hp : e0.parsed with
          | error m =>
            rw [parsedOk, hp] at hok
            exact Bool.noConfusion hok
          | ok j =>
            exact ih _ _ _ hrest
        · rw [if_neg h2]
          by_cases h3 : (lowerBasename e0.path == "projects.json") = true
          · rw [if_pos h3]
            have hok := hall e0 (List.mem_cons_self _ _)
              (by simp [matchedName, hd, h3])
            cases hp : e0.parsed with
            | error m =>
              rw [parsedOk, hp] at hok
              exact Bool.noConfusion hok
            | ok j =>
              exact ih _ _ _ hrest
          · rw [if_neg h3]
            exact ih _ _ _ hrest

theorem scan_users_none : ∀ (entries : List ZipEntry),
    hasFile entries "users.json" = false →
    ∀ (c : Option Json) (p : Json) (r : Option Json × Option Json × Json),
      scanLoop entries none c p = .ok r → r.1 = none := by
  intro entries
  induction entries with
  | nil =>
    intro _ c p r h
    rw [scanLoop] at h
    rw [← Except.ok.inj h]
  | cons e0 rest ih =>
    intro hmiss c p r h
    rw [hasFile, List.any_cons] at hmiss
    obtain ⟨hm0, hmrest⟩ := Bool.or_eq_false_iff.mp hmiss
    rw [scanLoop] at h
    by_cases hd : e0.isDir
    · rw [if_pos hd] at h
      exact ih hmrest c p r h
    · rw [if_neg hd] at h
      have hu : (lowerBasename e0.path == "users.json") = false := by
        have hd2 : e0.isDir = false := by simpa using hd
        simpa [hd2] using hm0
      rw [if_neg (by simp [hu])] at h
      by_cases h2 : (lowerBasename e0.path == "conversations.json") = true
      · rw [if_pos h2] at h
        cases hp : e0.parsed with
        | error m =>
          rw [hp] at h
          exact Except.noConfusion h
        | ok j =>
          rw [hp] at h
          exact ih hmrest _ _ r h
      · rw [if_neg h2] at h
        by_cases h3 : (lowerBasename e0.path == "projects.json") = true
        · rw [if_pos h3] at h
          cases hp : e0.parsed with
          | error m =>
            rw [hp] at h
            exact Except.noConfusion h
          | ok j =>
            rw [hp] at h
            exact ih hmrest _ _ r h
        · rw [if_neg h3] at h
          exact ih hmrest _ _ r h

theorem scan_convs_none : ∀ (entries : List ZipEntry),
    hasFile entries "conversations.json" = false →
    ∀ (u : Option Json) (p : Json) (r : Option Json × Option Json × Json),
      scanLoop entries u none p = .ok r → r.2.1 = none := by
  intro entries
  induction entries with
  | nil =>
    intro _ u p r h
    rw [scanLoop] at h
    rw [← Except.ok.inj h]
  | cons e0 rest ih =>
    intro hmiss u p r h
    rw [hasFile, List.any_cons] at hmiss
    obtain ⟨hm0, hmrest⟩ := Bool.or_eq_false_iff.mp hmiss
    rw [scanLoop] at h
    by_cases hd : e0.isDir
    · rw [if_pos hd] at h
      exact ih hmrest u p r h
    · rw [if_neg hd] at h
      have hc : (lowerBasename e0.path == "conversations.json") = false := by
        have hd2 : e0.isDir = false := by simpa using hd
        simpa [hd2] using hm0
      by_cases h1 : (lowerBasename e0.path == "users.json") = true
      · rw [if_pos h1] at h
        cases hp : e0.parsed with
        | error m =>
          rw [hp] at h
          exact Except.noConfusion h
        | ok j =>
          rw [hp] at h
          exact ih hmrest _ _ r h
      · rw [if_neg h1] at h
        rw [if_neg (by simp [hc])] at h
        by_cases h3 : (lowerBasename e0.path == "projects.json") = true
        · rw [if_pos h3] at h
          cases hp : e0.parsed with
          | error m =>
            rw [hp] at h
            exact Except.noConfusion h
          | ok j =>
            rw [hp] at h
            exact ih hmrest _ _ r h
        · rw [if_neg h3] at h
          exact ih hmrest _ _ r h

/-- C8 (amended): if either required basename is absent among the archive's
non-directory entries the load always fails; when additionally every
recognised entry parses (so the scan completes), the error is exactly the
message naming both required files; and every failed load leaves the
previously loaded users/conversations/projects state untouched, setting
only the error message. -/
theorem c8_missing_required (entries : List ZipEntry) (s : AppState)
    (hmiss : hasFile entries "users.json" = false ∨ hasFile entries "conversations.json" = false) :
    (∃ m, processZipFile entries = .error m) ∧
    ((∀ e ∈ entries, matchedName e = true → parsedOk e = true) →
      processZipFile entries = .error "Zip must contain users.json and conversations.json") ∧
    (∀ m, processZipFile entries = .error m →
      applyLoad s entries = { s with errorMsg := some m }) := by
  have hkey : ∀ r, scanLoop entries none none (Json.arr []) = .ok r →
      processZipFile entries = .error "Zip must contain users.json and conversations.json" := by
    intro r hr
    have hfal : (optFalsy r.1 || optFalsy r.2.1) = true := by
      rcases hmiss with hm | hm
      · rw [scan_users_none entries hm none (Json.arr []) r hr]
        rfl
      · rw [scan_convs_none entries hm none (Json.arr []) r hr]
        simp [optFalsy]
    obtain ⟨u, c, p⟩ := r
    simp only [processZipFile, hr]
    rw [if_pos hfal]
  refine ⟨?_, ?_, ?_⟩
  · cases hscan : scanLoop entries none none (Json.arr []) with
    | error m => exact ⟨m, by simp only [processZipFile, hscan]⟩
    | ok r => exact ⟨_, hkey r hscan⟩
  · intro hall
    obtain ⟨r, hr⟩ := scan_ok_of_all_parsed entries none none (Json.arr []) hall
    exact hkey r hr
  · intro m hm
    simp only [applyLoad, hm]

/-- An archive whose only entry is a conversations file with a JSON parse
error; `users.json` is absent. -/
def c8Entries : List ZipEntry :=
  [⟨"conversations.json", false, .error "Unexpected end of JSON input"⟩]

/-- Counterexample to C8 as stated: this archive is missing `users.json`,
so the claim predicts an error naming both required files, but the load
fails with the JSON parser's own message instead (the parse exception wins
before the presence check runs). -/
theorem c8_counterexample :
    hasFile c8Entries "users.json" = false ∧
    processZipFile c8Entries = .error "Unexpected end of JSON input" ∧
    "Unexpected end of JSON input" ≠ "Zip must contain users.json and conversations.json" := by
  refine ⟨rfl, rfl, ?_⟩
  decide

/-- An archive with only a well-formed conversations file. -/
def c8OkEntries : List ZipEntry :=
  [⟨"conversations.json", false, .ok (Json.arr [])⟩]

/-- A concrete prior state for loader witnesses. -/
def fixtureState : AppState :=
  { users := [Json.obj []], conversations := [], projects := [],
    dataLoaded := true, errorMsg := none }

/-- Witness for the amended C8 at a concrete archive missing `users.json`
whose entries all parse. -/
theorem c8_missing_required_witness :
    (∃ m, processZipFile c8OkEntries = .error m) ∧
    ((∀ e ∈ c8OkEntries, matchedName e = true → parsedOk e = true) →
      processZipFile c8OkEntries = .error "Zip must contain users.json and conversations.json") ∧
    (∀ m, processZipFile c8OkEntries = .error m →
      applyLoad fixtureState c8OkEntries = { fixtureState with errorMsg := some m }) :=
  c8_missing_required c8OkEntries fixtureState (Or.inl rfl)

/-- An archive in which both required files are present and well-formed but
`projects.json` fails to parse. -/
def c1Entries : List ZipEntry :=
  [⟨"users.json", false, .ok (Json.arr [])⟩,
   ⟨"conversations.json", false, .ok (Json.arr [])⟩,
   ⟨"projects.json", false, .error "Unexpected token < in JSON at position 0"⟩]

/-- Counterexample to C1 as stated: with `users.json` and
`conversations.json` present, parsed and arrays, a `projects.json` whose
content fails to parse makes the whole load fail with the parse error — it
does not succeed with an empty projects collection. -/
theorem c1_counterexample :
    processZipFile c1Entries = .error "Unexpected token < in JSON at position 0" ∧
    ∀ d : LoadedData, processZipFile c1Entries ≠ .ok d := by
  refine ⟨rfl, fun d h => ?_⟩
  have h2 : Except.error (α := LoadedData) "Unexpected token < in JSON at position 0" =
      Except.ok d := h
  exact Except.noConfusion h2

/-- C1 (amended): a `projects.json` entry whose content fails to parse is
fatal: the load reports an error (the leniency that degrades projects to an
empty collection applies only to a parse-successful non-array value, see
C9). -/
theorem c1_malformed_projects_fatal (entries : List ZipEntry)
    (hbad : ∃ e ∈ entries, e.isDir = false ∧ lowerBasename e.path = "projects.json" ∧
      ∃ m, e.parsed = Except.error m) :
    ∃ m, processZipFile entries = Except.error m := by
  obtain ⟨e, he, hdir, hname, m, hparse⟩ := hbad
  cases hscan : scanLoop entries none none (Json.arr []) with
  | error m2 => exact ⟨m2, by simp only [processZipFile, hscan]⟩
  | ok r =>
    exfalso
    have hall := scan_ok_all_parsed entries none none (Json.arr []) r hscan e he
    have hmn : matchedName e = true := by simp [matchedName, hdir, hname]
    have hok := hall hmn
    simp only [parsedOk, hparse] at hok
    exact Bool.noConfusion hok

/-- Witness for the amended C1 at the concrete malformed-projects archive. -/
theorem c1_malformed_projects_fatal_witness :
    ∃ m, processZipFile c1Entries = Except.error m :=
  c1_malformed_projects_fatal c1Entries
    ⟨⟨"projects.json", false, .error "Unexpected token < in JSON at position 0"⟩,
      by simp [c1Entries], rfl, rfl,
      "Unexpected token < in JSON at position 0", rfl⟩

/-- C9: when the scan completes with both required values present as
arrays and the projects slot holding a non-array value (so a
`projects.json` was present and parsed to a non-array, e.g. `{}`), the
load succeeds and the projects collection is empty. -/
theorem c9_nonarray_projects (entries : List ZipEntry) (u c p : Json)
    (hscan : scanLoop entries none none (Json.arr []) = .ok (some u, some c, p))
    (hu : ∃ us, u = Json.arr us) (hc : ∃ cs, c = Json.arr cs)
    (hp : ∀ ps, p ≠ Json.arr ps) :
    ∃ us cs, u = Json.arr us ∧ c = Json.arr cs ∧
      processZipFile entries = .ok { users := us, conversations := cs, projects := [] } := by
  obtain ⟨us, rfl⟩ := hu
  obtain ⟨cs, rfl⟩ := hc
  refine ⟨us, cs, rfl, rfl, ?_⟩
  cases p with
  | arr ps => exact absurd rfl (hp ps)
  | null => simp [processZipFile, hscan, optFalsy, jsFalsy]
  | bool b => simp [processZipFile, hscan, optFalsy, jsFalsy]
  | num n => simp [processZipFile, hscan, optFalsy, jsFalsy]
  | str str2 => simp [processZipFile, hscan, optFalsy, jsFalsy]
  | obj fs => simp [processZipFile, hscan, optFalsy, jsFalsy]

/-- An archive whose `projects.json` parses to the JSON object `{}`. -/
def c9Entries : List ZipEntry :=
  [⟨"export/users.json", false, .ok (Json.arr [])⟩,
   ⟨"export/conversations.json", false, .ok (Json.arr [Json.obj []])⟩,
   ⟨"export/projects.json", false, .ok (Json.obj [])⟩]

/-- Witness for C9 at a concrete archive with `projects.json` holding `{}`. -/
theorem c9_nonarray_projects_witness :
    ∃ us cs, (Json.arr [] : Json) = Json.arr us ∧
      (Json.arr [Json.obj []] : Json) = Json.arr cs ∧
      processZipFile c9Entries = .ok { users := us, conversations := cs, projects := [] } :=
  c9_nonarray_projects c9Entries (Json.arr []) (Json.arr [Json.obj []]) (Json.obj [])
    rfl ⟨[], rfl⟩ ⟨[Json.obj []], rfl⟩ (fun _ h => Json.noConfusion h)
